import Mathlib

/-!
Verification of the upstream-forwarding engine of the dns_proxy repository
(`rco/dnsproxy/upstream.go`).

The Go code is shallowly embedded: Go `int` becomes `Int` (with Go's
truncated `%` as `Int.tmod` and division-by-zero panics surfaced as
`Option.none`), Go maps become functions `String → Option _` built by
update, the mutable round-robin counter becomes explicit state passing,
and the wall clock plus network exchanges of the forwarding loop become
an explicit environment (`FwdEnv`): `checkTime i` is the value of
`time.Now()` observed before loop iteration `i`, and `exchange i host`
is the outcome of the DNS exchange attempted at iteration `i`.  The
unbounded `for` loop is given fuel; exhausting fuel is reported as a
distinct outcome so that theorems never confuse it with a real return.
Telemetry counter increments carry no data flow and are omitted.
-/

namespace DnsProxy

/-- Load-balancing selector constant `ByOrderLB` from the source. -/
def ByOrderLB : Nat := 0

/-- Load-balancing selector constant `RoundRobinLB` from the source. -/
def RoundRobinLB : Nat := 1

/-- Reserved server-group name `AllGroupName = "all"` from the source. -/
def AllGroupName : String := "all"

/-- `UpstreamServer` from the source: an address plus string annotations
(the Go `map[string]string` is embedded as an association list). -/
structure UpstreamServer where
  address : String
  annotations : List (String × String)
deriving DecidableEq, Repr

/-- Lookup of one annotation key, embedding the Go map read
`srv.Annotations["region"]` together with its `ok` flag. -/
def UpstreamServer.annot (s : UpstreamServer) (k : String) : Option String :=
  (s.annotations.find? (fun p => p.1 == k)).map (fun p => p.2)

/-- One question of a DNS message (`dns.Question`): name, type, class. -/
structure DnsQuestion where
  name : String
  qtype : Nat
  qclass : Nat
deriving DecidableEq, Repr

/-- One answer record of a DNS message, kept opaque: only the number of
answer records is ever inspected by the code under verification. -/
structure DnsRecord where
  data : String
deriving DecidableEq, Repr

/-- The parts of `dns.Msg` the upstream engine reads or writes:
the question section and the answer section. -/
structure DnsMsg where
  question : List DnsQuestion
  answer : List DnsRecord
deriving DecidableEq, Repr

/-- Modelled from the spec: `Query`, one candidate query
`{Name: domain string, Type: DNS record type}` (its declaration is in a
repository file outside `src/`; only its two fields are used here). -/
structure Query where
  name : String
  qtype : Nat
deriving DecidableEq, Repr

/-- Modelled from the spec: the decision carried by an `EngineQuery`,
`Result ∈ {ALLOWED, DENIED}`. -/
inductive EngineResult where
  | ALLOWED
  | DENIED
deriving DecidableEq, Repr

/-- Modelled from the spec: `EngineQuery = {Queries, Result, dnsMsg}`
(its declaration is in a repository file outside `src/`). -/
structure EngineQuery where
  queries : List Query
  result : EngineResult
  dnsMsg : DnsMsg
deriving DecidableEq, Repr

/-- Modelled from the spec: `RequestMetadata`, per-request context with
at minimum a `Region` string; the upstream engine reads only `Region`. -/
structure RequestMetadata where
  region : String
deriving DecidableEq, Repr

/-- Modelled from the spec: the configured `RegionMap`.  The upstream
engine only tests the pointer for `nil`, so its content is irrelevant
here; one field keeps the structure inhabited and concrete. -/
structure RegionMap where
  regions : List String
deriving DecidableEq, Repr

/-- `IndexRoundRobin` from the source, minus the mutex (the lock only
makes `Get`/`LimitedGet` atomic; the atomic step itself is the function
below, applied by explicit state passing). -/
structure IndexRoundRobin where
  current : Int
  max : Int
deriving DecidableEq, Repr

/-- `IndexRoundRobin.Get` from the source: reduce the counter modulo
`max` once it has reached `max`, return it, then advance it.  Go's `%`
on `int` is truncated division, `Int.tmod`; `% 0` panics, embedded as
`none`. -/
def IndexRoundRobin.get (r : IndexRoundRobin) : Option (Int × IndexRoundRobin) :=
  if r.current ≥ r.max then
    if r.max = 0 then none
    else
      let c := Int.tmod r.current r.max
      some (c, { current := c + 1, max := r.max })
  else
    some (r.current, { current := r.current + 1, max := r.max })

/-- `IndexRoundRobin.LimitedGet` from the source: same as `Get` but
against a caller-supplied bound instead of the stored `max`. -/
def IndexRoundRobin.limitedGet (r : IndexRoundRobin) (bound : Int) :
    Option (Int × IndexRoundRobin) :=
  if r.current ≥ bound then
    if bound = 0 then none
    else
      let c := Int.tmod r.current bound
      some (c, { current := c + 1, max := r.max })
  else
    some (r.current, { current := r.current + 1, max := r.max })

/-- `UpstreamsManager` from the source.  The Go map
`serversRegionMap map[string]ServersView` is embedded as a function to
`Option` (`none` = key absent); the mutable `rrLB` pointer is threaded
separately as explicit state. -/
structure UpstreamsManager where
  servers : List UpstreamServer
  lbType : Nat
  regionMap : Option RegionMap
  serversRegionMap : String → Option (List UpstreamServer)
  timeout : Nat

/-- One step of the region-group construction loop in
`NewUpstreamsManager`: append the server to its annotated region's group
(when the `region` annotation is present), then append it to the
reserved `"all"` group. -/
def addServerToGroups (m : String → Option (List UpstreamServer))
    (srv : UpstreamServer) : String → Option (List UpstreamServer) :=
  let m1 : String → Option (List UpstreamServer) :=
    match srv.annot "region" with
    | some region => fun x => if x = region then some (((m region).getD []) ++ [srv]) else m x
    | none => m
  fun x => if x = AllGroupName then some (((m1 AllGroupName).getD []) ++ [srv]) else m1 x

/-- The `serversRegionMap` built by the loop in `NewUpstreamsManager`,
starting from the empty Go map. -/
def buildServersRegionMap (servers : List UpstreamServer) :
    String → Option (List UpstreamServer) :=
  servers.foldl addServerToGroups (fun _ => none)

/-- `NewUpstreamsManager` from the source (timeout already parsed to a
number; an unparseable duration is a startup-time fatal outside this
model).  Returns the static manager together with the initial `rrLB`
state: `some ⟨0, len servers⟩` for `"RoundRobin"`, otherwise the `nil`
pointer `none`. -/
def newUpstreamsManager (servers : List UpstreamServer) (lbName : String)
    (regionMap : Option RegionMap) (timeout : Nat) :
    UpstreamsManager × Option IndexRoundRobin :=
  ({ servers := servers
     lbType := if lbName = "RoundRobin" then RoundRobinLB else ByOrderLB
     regionMap := regionMap
     serversRegionMap := buildServersRegionMap servers
     timeout := timeout },
   if lbName = "RoundRobin" then some { current := 0, max := Int.ofNat servers.length }
   else none)

/-- `UpstreamsManager.UpstreamSelector` from the source: with no region
map configured, or when `meta.Region` is not a key of the group map,
fall back to the `"all"` group (a Go map read without `ok`, whose zero
value is the empty view); otherwise return the region's group.  The
error component is always `nil`. -/
def UpstreamsManager.UpstreamSelector (usm : UpstreamsManager) (req : DnsMsg)
    (meta : RequestMetadata) : Option String × List UpstreamServer :=
  match usm.regionMap with
  | none => (none, (usm.serversRegionMap AllGroupName).getD [])
  | some _ =>
    match usm.serversRegionMap meta.region with
    | some serversList => (none, serversList)
    | none => (none, (usm.serversRegionMap AllGroupName).getD [])

/-- Outcome of one `client.Exchange` call: a transport error or a
response message. -/
inductive ExchangeResult where
  | err
  | resp (m : DnsMsg)
deriving DecidableEq, Repr

/-- Environment of one `forwardRequest` call: `start` is `time.Now()` at
entry, `checkTime i` is the `currentTime` value observed before loop
iteration `i`, and `exchange i host` is the outcome of the exchange
issued at iteration `i` against `host`. -/
structure FwdEnv where
  start : Nat
  checkTime : Nat → Nat
  exchange : Nat → String → ExchangeResult

/-- Result of `forwardRequest`: a response with answers (`ok`), the
`nil` return after the deadline (`noAnswer`), a Go runtime panic
(out-of-range index, `% 0`, or `nil`-pointer `rrLB`), or fuel
exhaustion (a model artifact, not a program behavior). -/
inductive FwdOut where
  | ok (resp : DnsMsg)
  | noAnswer
  | panic
  | fuelOut
deriving DecidableEq, Repr

/-- Go slice indexing `l[n]` for an `int` index: `none` is the
out-of-range panic (negative or too large). -/
def goIndex (l : List UpstreamServer) (n : Int) : Option UpstreamServer :=
  if n < 0 then none else l.get? n.toNat

/-- The server-selection expression inside the forwarding loop body:
`servers[usm.rrLB.LimitedGet(len(servers))].Address` under RoundRobin
(`none` when `rrLB` is `nil`, `LimitedGet` divides by zero, or the
index is out of range), `servers[i].Address` under ByOrder (`none` when
`i` is out of range). -/
def selectHost (lbType : Nat) (servers : List UpstreamServer) (i : Nat)
    (rr : Option IndexRoundRobin) : Option (String × Option IndexRoundRobin) :=
  if lbType = RoundRobinLB then
    match rr with
    | none => none
    | some r =>
      match r.limitedGet (Int.ofNat servers.length) with
      | none => none
      | some (idx, r') =>
        match goIndex servers idx with
        | none => none
        | some srv => some (srv.address, some r')
  else
    match servers.get? i with
    | none => none
    | some srv => some (srv.address, rr)

/-- The `for` loop of `forwardRequest`: while `currentTime` is before
`startTime + Timeout`, pick a host by the load-balancing policy, issue
the exchange, return the response if it has at least one answer record,
otherwise (error or empty answer) continue with `i+1`.  Returns the
outcome, the final round-robin state, and the final value of the loop
counter `i`. -/
def forwardLoop (lbType timeout : Nat) (servers : List UpstreamServer)
    (env : FwdEnv) : Nat → Nat → Option IndexRoundRobin →
    FwdOut × Option IndexRoundRobin × Nat
  | 0, i, rr => (.fuelOut, rr, i)
  | fuel+1, i, rr =>
    if env.checkTime i < env.start + timeout then
      match selectHost lbType servers i rr with
      | none => (.panic, rr, i)
      | some (host, rr') =>
        match env.exchange i host with
        | .err => forwardLoop lbType timeout servers env fuel (i+1) rr'
        | .resp m =>
          if m.answer.length > 0 then (.ok m, rr', i)
          else forwardLoop lbType timeout servers env fuel (i+1) rr'
    else (.noAnswer, rr, i)

/-- `UpstreamsManager.forwardRequest` from the source: resolve the
server set once via `UpstreamSelector` (whose error is always `nil`;
a non-`nil` error would return `nil` immediately), then run the
deadline-bounded loop.  The selected server set is returned as well, as
the record of this call's single selector invocation. -/
def UpstreamsManager.forwardRequest (usm : UpstreamsManager) (req : DnsMsg)
    (meta : RequestMetadata) (env : FwdEnv) (fuel : Nat)
    (rr : Option IndexRoundRobin) :
    FwdOut × Option IndexRoundRobin × Nat × List UpstreamServer :=
  match usm.UpstreamSelector req meta with
  | (some _, servers) => (.noAnswer, rr, 0, servers)
  | (none, servers) =>
    match forwardLoop usm.lbType usm.timeout servers env fuel 0 rr with
    | (out, rr', i) => (out, rr', i, servers)

/-- `UpstreamsManager.buildUpstreamMsg` from the source: clone the
original message and replace its question section with the single
candidate question, keeping the original `Qclass`.  `none` is the Go
panic on `originReq.Question[0]` when the question section is empty. -/
def buildUpstreamMsg (originReq : DnsMsg) (query : Query) : Option DnsMsg :=
  match originReq.question.get? 0 with
  | none => none
  | some q0 =>
    some { originReq with
           question := [{ name := query.name, qtype := query.qtype, qclass := q0.qclass }] }

/-- Result of `Apply`: the returned `EngineQuery`, the returned Go
error (by its message), a runtime panic, or fuel exhaustion. -/
inductive ApplyOut where
  | ok (res : EngineQuery)
  | err (msg : String)
  | panic
  | fuelOut
deriving DecidableEq, Repr

/-- Trace record of one candidate's `forwardRequest` call: the upstream
message built for it, the server set its selector invocation resolved,
and the final loop counter of its forwarding loop. -/
structure CandTrace where
  builtMsg : DnsMsg
  serversUsed : List UpstreamServer
  iters : Nat
deriving DecidableEq, Repr

/-- The candidate loop of `Apply`: build the upstream message for each
candidate in order, forward it, and return the first non-`nil` response
wrapped in an `ALLOWED` `EngineQuery`; when all candidates are
exhausted, return the terminal error.  `env cIdx` is the forwarding
environment of the `cIdx`-th candidate; the trace accumulates one
record per `forwardRequest` call actually made. -/
def applyLoop (usm : UpstreamsManager) (allQueries : List Query) (origin : DnsMsg)
    (meta : RequestMetadata) (env : Nat → FwdEnv) (fuel : Nat) :
    List Query → Nat → Option IndexRoundRobin → List CandTrace →
    ApplyOut × Option IndexRoundRobin × List CandTrace
  | [], _, rr, tr => (.err "failed to get response from Upstream Servers", rr, tr)
  | q :: rest, cIdx, rr, tr =>
    match buildUpstreamMsg origin q with
    | none => (.panic, rr, tr)
    | some upsRequest =>
      match usm.forwardRequest upsRequest meta (env cIdx) fuel rr with
      | (out, rr', iters, serversUsed) =>
        match out with
        | .ok resp =>
          (.ok { queries := allQueries, result := .ALLOWED, dnsMsg := resp }, rr',
           tr ++ [{ builtMsg := upsRequest, serversUsed := serversUsed, iters := iters }])
        | .noAnswer =>
          applyLoop usm allQueries origin meta env fuel rest (cIdx+1) rr'
            (tr ++ [{ builtMsg := upsRequest, serversUsed := serversUsed, iters := iters }])
        | .panic =>
          (.panic, rr',
           tr ++ [{ builtMsg := upsRequest, serversUsed := serversUsed, iters := iters }])
        | .fuelOut =>
          (.fuelOut, rr',
           tr ++ [{ builtMsg := upsRequest, serversUsed := serversUsed, iters := iters }])

/-- Iterated `Get`: the list of values returned by `n` successive
`Get()` calls together with the final counter state; `none` as soon as
one call panics. -/
def IndexRoundRobin.getN : IndexRoundRobin → Nat → Option (List Int × IndexRoundRobin)
  | r, 0 => some ([], r)
  | r, n+1 =>
    match r.get with
    | none => none
    | some (v, r') =>
      match r'.getN n with
      | none => none
      | some (l, r'') => some (v :: l, r'')

/-- Counter value after `n` successive `Get()` calls starting from
counter `c` with bound `M` (for `c ≤ M`): unchanged for `n = 0`,
otherwise one past the value returned by the last call. -/
def rrCur (c M n : Nat) : Nat :=
  match n with
  | 0 => c
  | m+1 => ((c + m) % M) + 1

/-- States of an `IndexRoundRobin` reachable from a freshly constructed
counter (`current = 0`) by any interleaving of successful `Get` and
`LimitedGet` calls, with arbitrary caller-supplied bounds. -/
inductive RRReach : IndexRoundRobin → Prop where
  | init (m : Int) : RRReach { current := 0, max := m }
  | get {r : IndexRoundRobin} {v : Int} {r' : IndexRoundRobin} :
      RRReach r → r.get = some (v, r') → RRReach r'
  | limited {r : IndexRoundRobin} {b v : Int} {r' : IndexRoundRobin} :
      RRReach r → r.limitedGet b = some (v, r') → RRReach r'

/-- An exchange outcome the loop treats as "no usable answer": a
transport error, or a response with zero answer records. -/
def isNoAnswerAttempt : ExchangeResult → Bool
  | .err => true
  | .resp m => m.answer.isEmpty

/-- State-threaded per-candidate forwarding outcomes: the outcome each
candidate's `forwardRequest` call would produce, threading the
round-robin state from one candidate to the next exactly as the
candidate loop of `Apply` does (a build panic is recorded as `panic`
without consuming state). -/
def candOutcomes (usm : UpstreamsManager) (origin : DnsMsg) (meta : RequestMetadata)
    (env : Nat → FwdEnv) (fuel : Nat) :
    List Query → Nat → Option IndexRoundRobin → List FwdOut
  | [], _, _ => []
  | q :: rest, cIdx, rr =>
    match buildUpstreamMsg origin q with
    | none => .panic :: candOutcomes usm origin meta env fuel rest (cIdx+1) rr
    | some upsRequest =>
      match usm.forwardRequest upsRequest meta (env cIdx) fuel rr with
      | (out, rr', _, _) => out :: candOutcomes usm origin meta env fuel rest (cIdx+1) rr'

/-- `UpstreamsManager.Apply` from the source: reject an empty candidate
list with an error before any forwarding, otherwise run the candidate
loop. -/
def UpstreamsManager.Apply (usm : UpstreamsManager) (query : EngineQuery)
    (meta : RequestMetadata) (env : Nat → FwdEnv) (fuel : Nat)
    (rr : Option IndexRoundRobin) :
    ApplyOut × Option IndexRoundRobin × List CandTrace :=
  if query.queries.length ≤ 0 then
    (.err "can't get as input empty EngineQuery", rr, [])
  else
    applyLoop usm query.queries query.dnsMsg meta env fuel query.queries 0 rr []

/-! ## Round-robin counter lemmas -/

/-- Any state reachable by successful `Get`/`LimitedGet` calls has a
nonnegative counter: the counter starts at `0`, Go's truncated `%`
keeps a nonnegative dividend nonnegative, and the counter only ever
advances by one otherwise. -/
lemma rrReach_nonneg {r : IndexRoundRobin} (h : RRReach r) : 0 ≤ r.current := by
  induction h with
  | init m => exact le_refl 0
  | @get r v r' hr hstep ih =>
    unfold IndexRoundRobin.get at hstep
    by_cases h1 : r.current ≥ r.max
    · rw [if_pos h1] at hstep
      by_cases h2 : r.max = 0
      · rw [if_pos h2] at hstep
        exact absurd hstep (by simp)
      · rw [if_neg h2] at hstep
        simp only [Option.some.injEq, Prod.mk.injEq] at hstep
        obtain ⟨rfl, rfl⟩ := hstep
        have h3 := Int.tmod_nonneg r.max ih
        dsimp only
        omega
    · rw [if_neg h1] at hstep
      simp only [Option.some.injEq, Prod.mk.injEq] at hstep
      obtain ⟨rfl, rfl⟩ := hstep
      dsimp only
      omega
  | @limited r b v r' hr hstep ih =>
    unfold IndexRoundRobin.limitedGet at hstep
    by_cases h1 : r.current ≥ b
    · rw [if_pos h1] at hstep
      by_cases h2 : b = 0
      · rw [if_pos h2] at hstep
        exact absurd hstep (by simp)
      · rw [if_neg h2] at hstep
        simp only [Option.some.injEq, Prod.mk.injEq] at hstep
        obtain ⟨rfl, rfl⟩ := hstep
        have h3 := Int.tmod_nonneg b ih
        dsimp only
        omega
    · rw [if_neg h1] at hstep
      simp only [Option.some.injEq, Prod.mk.injEq] at hstep
      obtain ⟨rfl, rfl⟩ := hstep
      dsimp only
      omega

/-- One `Get()` step on a counter `c ≤ M` with `0 < M`: the returned
value is `c % M` and the counter advances to `c % M + 1`. -/
lemma get_nat (c M : Nat) (hc : c ≤ M) (hM : 0 < M) :
    IndexRoundRobin.get { current := (c : Int), max := (M : Int) } =
      some (((c % M : Nat) : Int),
            { current := ((c % M + 1 : Nat) : Int), max := (M : Int) }) := by
  unfold IndexRoundRobin.get
  dsimp only
  rcases lt_or_eq_of_le hc with h | h
  · rw [if_neg (by exact_mod_cast not_le.mpr h)]
    simp [Nat.mod_eq_of_lt h]
  · subst h
    rw [if_pos (le_refl _), if_neg (by exact_mod_cast hM.ne')]
    simp [Int.tmod_self, Nat.mod_self]

/-- Advancing the `rrCur` closed form by one `Get()` step. -/
lemma rrCur_succ (c M n : Nat) : rrCur (c % M + 1) M n = rrCur c M (n+1) := by
  cases n with
  | zero => simp [rrCur]
  | succ m =>
    show ((c % M + 1 + m) % M) + 1 = ((c + (m + 1)) % M) + 1
    rw [Nat.add_assoc (c % M) 1 m, Nat.mod_add_mod, Nat.add_comm 1 m]

/-- Closed form for `n` successive `Get()` calls from any counter
`c ≤ M` with `0 < M`: the returned values are
`c % M, (c+1) % M, …` and the final state is `rrCur c M n`. -/
lemma getN_closed (M : Nat) (hM : 0 < M) :
    ∀ (n c : Nat), c ≤ M →
      IndexRoundRobin.getN { current := (c : Int), max := (M : Int) } n =
        some (((List.range n).map fun k => (((c + k) % M : Nat) : Int)),
              { current := ((rrCur c M n : Nat) : Int), max := (M : Int) }) := by
  intro n
  induction n with
  | zero =>
    intro c hc
    simp [IndexRoundRobin.getN, rrCur]
  | succ n ih =>
    intro c hc
    have hn : c % M + 1 ≤ M := Nat.succ_le_of_lt (Nat.mod_lt c hM)
    have ihc := ih (c % M + 1) hn
    simp only [IndexRoundRobin.getN, get_nat c M hc hM, ihc, Option.some.injEq,
      Prod.mk.injEq]
    refine ⟨?_, ?_⟩
    · have htail : List.map (fun k => (((c % M + 1 + k) % M : Nat) : Int)) (List.range n)
          = List.map ((fun k => (((c + k) % M : Nat) : Int)) ∘ Nat.succ) (List.range n) := by
        refine List.map_congr_left ?_
        intro k _
        simp only [Function.comp_apply, Nat.succ_eq_add_one]
        congr 1
        rw [Nat.add_assoc (c % M) 1 k, Nat.mod_add_mod, Nat.add_comm 1 k]
      rw [List.range_succ_eq_map, List.map_cons, List.map_map, htail]
      simp
    · rw [rrCur_succ]

/-- Claim C5: starting from a fresh counter with `max = M > 0`, `N`
successive `Get()` calls succeed and return the cyclic sequence
`0, 1, …, M-1, 0, …` — the `k`-th call (0-based) returns `k % M` — and
every returned value is strictly below `M`. -/
theorem get_cyclic (M N : Nat) (hM : 0 < M) :
    IndexRoundRobin.getN { current := 0, max := (M : Int) } N =
      some (((List.range N).map fun k => ((k % M : Nat) : Int)),
            { current := ((rrCur 0 M N : Nat) : Int), max := (M : Int) }) ∧
    ∀ v ∈ (List.range N).map fun k => ((k % M : Nat) : Int), v < (M : Int) := by
  constructor
  · have h := getN_closed M hM N 0 (Nat.zero_le M)
    simpa using h
  · intro v hv
    simp only [List.mem_map, List.mem_range] at hv
    obtain ⟨k, _, rfl⟩ := hv
    exact_mod_cast Nat.mod_lt k hM

/-- Witness for C5 at `M = 3`, `N = 7`. -/
theorem get_cyclic_w :
    IndexRoundRobin.getN { current := 0, max := ((3 : Nat) : Int) } 7 =
      some (((List.range 7).map fun k => ((k % 3 : Nat) : Int)),
            { current := ((rrCur 0 3 7 : Nat) : Int), max := ((3 : Nat) : Int) }) ∧
    ∀ v ∈ (List.range 7).map fun k => ((k % 3 : Nat) : Int), v < ((3 : Nat) : Int) :=
  get_cyclic 3 7 (by decide)

/-- Claim C4: on any reachable counter state — including one whose
counter exceeds the bound because of a prior call with a different
bound — `LimitedGet(bound)` with `bound > 0` succeeds and returns a
value in `[0, bound)`: the counter is first reduced modulo `bound` when
it has reached or exceeded `bound`, then returned and advanced by
one. -/
theorem limitedGet_in_range (r : IndexRoundRobin) (bound : Int)
    (hr : RRReach r) (hb : 0 < bound) :
    ∃ v r', r.limitedGet bound = some (v, r') ∧ 0 ≤ v ∧ v < bound ∧
      v = (if r.current ≥ bound then Int.tmod r.current bound else r.current) ∧
      r'.current = v + 1 := by
  have hc := rrReach_nonneg hr
  by_cases h1 : r.current ≥ bound
  · refine ⟨Int.tmod r.current bound,
      { current := Int.tmod r.current bound + 1, max := r.max }, ?_, ?_, ?_, ?_, rfl⟩
    · unfold IndexRoundRobin.limitedGet
      rw [if_pos h1, if_neg hb.ne']
    · exact Int.tmod_nonneg bound hc
    · exact Int.tmod_lt_of_pos _ hb
    · rw [if_pos h1]
  · refine ⟨r.current, { current := r.current + 1, max := r.max }, ?_, hc,
      not_le.mp h1, ?_, rfl⟩
    · unfold IndexRoundRobin.limitedGet
      rw [if_neg h1]
    · rw [if_neg h1]

/-- Witness for C4: the state `⟨3, 5⟩` (reached by three `Get()` calls
against `max = 5`) exceeds the new bound `2`, and `LimitedGet(2)`
still returns a value in `[0, 2)`. -/
theorem limitedGet_in_range_w :
    RRReach { current := 3, max := 5 } ∧ (0 : Int) < 2 ∧
    ∃ v r', IndexRoundRobin.limitedGet { current := 3, max := 5 } 2 = some (v, r') ∧
      0 ≤ v ∧ v < 2 ∧
      v = (if (3 : Int) ≥ 2 then Int.tmod 3 2 else 3) ∧
      r'.current = v + 1 := by
  have s0 : RRReach { current := 0, max := 5 } := RRReach.init 5
  have e1 : IndexRoundRobin.get { current := 0, max := 5 } =
      some (0, { current := 1, max := 5 }) := by decide
  have e2 : IndexRoundRobin.get { current := 1, max := 5 } =
      some (1, { current := 2, max := 5 }) := by decide
  have e3 : IndexRoundRobin.get { current := 2, max := 5 } =
      some (2, { current := 3, max := 5 }) := by decide
  have s1 : RRReach { current := 1, max := 5 } := RRReach.get s0 e1
  have s2 : RRReach { current := 2, max := 5 } := RRReach.get s1 e2
  have s3 : RRReach { current := 3, max := 5 } := RRReach.get s2 e3
  exact ⟨s3, by decide, limitedGet_in_range _ 2 s3 (by decide)⟩

/-- Claim C10: the in-range guarantee of `Get`/`LimitedGet` needs a
positive bound — both reduce the counter with Go's `%` once it has
reached the bound, so a zero bound (always reached, since the counter
is nonnegative) divides by zero, a runtime panic; and under the
RoundRobin policy an empty resolved server set makes the forwarding
loop call `LimitedGet(0)` and hit exactly this panic on its first
iteration inside the deadline. -/
theorem limitedGet_zero_bound (r : IndexRoundRobin) (env : FwdEnv) (t fuel : Nat)
    (hc : 0 ≤ r.current) (hdl : env.checkTime 0 < env.start + t) :
    r.limitedGet 0 = none ∧
    (r.max = 0 → r.get = none) ∧
    forwardLoop RoundRobinLB t [] env (fuel+1) 0 (some r) = (.panic, some r, 0) := by
  have hl : r.limitedGet 0 = none := by
    unfold IndexRoundRobin.limitedGet
    rw [if_pos hc, if_pos rfl]
  refine ⟨hl, ?_, ?_⟩
  · intro hm
    unfold IndexRoundRobin.get
    rw [hm, if_pos hc, if_pos rfl]
  · unfold forwardLoop
    rw [if_pos hdl]
    unfold selectHost
    rw [if_pos rfl]
    simp [Int.ofNat_zero, hl]

/-- Witness for C10 at the fresh counter `⟨0, 0⟩` and a deadline that
admits the first iteration. -/
theorem limitedGet_zero_bound_w :
    0 ≤ ({ current := 0, max := 0 } : IndexRoundRobin).current ∧
    ({ start := 0, checkTime := fun _ => 0, exchange := fun _ _ => .err } :
        FwdEnv).checkTime 0 <
      ({ start := 0, checkTime := fun _ => 0, exchange := fun _ _ => .err } :
        FwdEnv).start + 5 ∧
    (({ current := 0, max := 0 } : IndexRoundRobin).limitedGet 0 = none ∧
     (({ current := 0, max := 0 } : IndexRoundRobin).max = 0 →
        ({ current := 0, max := 0 } : IndexRoundRobin).get = none) ∧
     forwardLoop RoundRobinLB 5 []
        { start := 0, checkTime := fun _ => 0, exchange := fun _ _ => .err }
        (0+1) 0 (some { current := 0, max := 0 }) =
       (.panic, some { current := 0, max := 0 }, 0)) :=
  ⟨by decide, by decide,
   limitedGet_zero_bound { current := 0, max := 0 }
     { start := 0, checkTime := fun _ => 0, exchange := fun _ _ => .err }
     5 0 (by decide) (by decide)⟩

/-! ## Forwarding-loop lemmas -/

/-- The selector's error component is always `nil`: every return path
of `UpstreamSelector` pairs the chosen view with a `nil` error. -/
lemma upstreamSelector_fst (usm : UpstreamsManager) (req : DnsMsg)
    (meta : RequestMetadata) : (usm.UpstreamSelector req meta).1 = none := by
  unfold UpstreamsManager.UpstreamSelector
  rcases usm.regionMap with _ | rm
  · rfl
  · rcases usm.serversRegionMap meta.region with _ | l <;> rfl

/-- Timing discipline of the forwarding loop, from any starting counter:
the final counter never decreases, the deadline check passed before
every iteration that ran, and a `nil` (no-answer) return happens exactly
when the check observed the deadline reached. -/
lemma forwardLoop_times (lbType timeout : Nat) (servers : List UpstreamServer)
    (env : FwdEnv) :
    ∀ (fuel i : Nat) (rr : Option IndexRoundRobin) (out : FwdOut)
      (rr' : Option IndexRoundRobin) (n : Nat),
      forwardLoop lbType timeout servers env fuel i rr = (out, rr', n) →
      i ≤ n ∧ (∀ j, i ≤ j → j < n → env.checkTime j < env.start + timeout) ∧
        (out = .noAnswer → ¬ env.checkTime n < env.start + timeout) := by
  intro fuel
  induction fuel with
  | zero =>
    intro i rr out rr' n h
    simp only [forwardLoop, Prod.mk.injEq] at h
    obtain ⟨rfl, rfl, rfl⟩ := h
    exact ⟨le_refl i,
      fun j hj1 hj2 => absurd (Nat.lt_of_le_of_lt hj1 hj2) (Nat.lt_irrefl i),
      fun hno => absurd hno (by simp)⟩
  | succ fuel ih =>
    intro i rr out rr' n h
    simp only [forwardLoop] at h
    by_cases hc : env.checkTime i < env.start + timeout
    · rw [if_pos hc] at h
      cases hsel : selectHost lbType servers i rr with
      | none =>
        rw [hsel] at h
        simp only [Prod.mk.injEq] at h
        obtain ⟨rfl, rfl, rfl⟩ := h
        exact ⟨le_refl i,
          fun j hj1 hj2 => absurd (Nat.lt_of_le_of_lt hj1 hj2) (Nat.lt_irrefl i),
          fun hno => absurd hno (by simp)⟩
      | some pr =>
        obtain ⟨host, rr2⟩ := pr
        rw [hsel] at h
        simp only at h
        cases hex : env.exchange i host with
        | err =>
          rw [hex] at h
          have ht := ih (i+1) rr2 out rr' n h
          refine ⟨by omega, ?_, ht.2.2⟩
          intro j hj1 hj2
          rcases Nat.eq_or_lt_of_le hj1 with rfl | hj
          · exact hc
          · exact ht.2.1 j hj hj2
        | resp m =>
          rw [hex] at h
          dsimp only at h
          by_cases ha : m.answer.length > 0
          · rw [if_pos ha] at h
            simp only [Prod.mk.injEq] at h
            obtain ⟨rfl, rfl, rfl⟩ := h
            exact ⟨le_refl i,
              fun j hj1 hj2 => absurd (Nat.lt_of_le_of_lt hj1 hj2) (Nat.lt_irrefl i),
              fun hno => absurd hno (by simp)⟩
          · rw [if_neg ha] at h
            have ht := ih (i+1) rr2 out rr' n h
            refine ⟨by omega, ?_, ht.2.2⟩
            intro j hj1 hj2
            rcases Nat.eq_or_lt_of_le hj1 with rfl | hj
            · exact hc
            · exact ht.2.1 j hj hj2
    · rw [if_neg hc] at h
      simp only [Prod.mk.injEq] at h
      obtain ⟨rfl, rfl, rfl⟩ := h
      exact ⟨le_refl i,
        fun j hj1 hj2 => absurd (Nat.lt_of_le_of_lt hj1 hj2) (Nat.lt_irrefl i),
        fun _ => hc⟩

/-- Under ByOrder, the loop-body selection is raw indexing by the loop
counter, returning the round-robin state untouched. -/
lemma selectHost_byOrder (servers : List UpstreamServer) (i : Nat)
    (rr0 : Option IndexRoundRobin) :
    selectHost ByOrderLB servers i rr0 =
      (servers.get? i).map fun s => (s.address, rr0) := by
  unfold selectHost
  rw [if_neg (by simp [ByOrderLB, RoundRobinLB])]
  cases servers.get? i <;> rfl

/-- Under ByOrder, if the deadline check fails at some counter value
`stop` no larger than the server count, no iteration ever indexes out
of range: the loop cannot panic. -/
lemma byOrder_no_panic (timeout : Nat) (servers : List UpstreamServer) (env : FwdEnv) :
    ∀ (fuel i : Nat) (rr : Option IndexRoundRobin) (stop : Nat), i ≤ stop →
      stop ≤ servers.length → ¬ env.checkTime stop < env.start + timeout →
      (forwardLoop ByOrderLB timeout servers env fuel i rr).1 ≠ .panic := by
  intro fuel
  induction fuel with
  | zero =>
    intro i rr stop h1 h2 h3
    simp [forwardLoop]
  | succ fuel ih =>
    intro i rr stop h1 h2 h3
    simp only [forwardLoop]
    by_cases hc : env.checkTime i < env.start + timeout
    · rw [if_pos hc]
      have hne : i ≠ stop := by
        intro he
        exact h3 (he ▸ hc)
      have hi : i < servers.length := by omega
      rw [selectHost_byOrder, List.get?_eq_get hi]
      simp only [Option.map_some']
      cases hex : env.exchange i (servers.get ⟨i, hi⟩).address with
      | err => exact ih (i+1) rr stop (by omega) h2 h3
      | resp m =>
        dsimp only
        by_cases ha : m.answer.length > 0
        · rw [if_pos ha]
          simp
        · rw [if_neg ha]
          exact ih (i+1) rr stop (by omega) h2 h3
    · rw [if_neg hc]
      simp

/-- Under ByOrder, once the deadline admits one more iteration than
there are servers and no earlier attempt succeeds, the iteration whose
counter equals the server count indexes out of range: the loop
panics. -/
lemma byOrder_panic (timeout : Nat) (servers : List UpstreamServer) (env : FwdEnv)
    (hck : ∀ j, j ≤ servers.length → env.checkTime j < env.start + timeout)
    (hat : ∀ j h, j < servers.length → isNoAnswerAttempt (env.exchange j h) = true) :
    ∀ (fuel i : Nat) (rr : Option IndexRoundRobin), i ≤ servers.length →
      servers.length + 1 - i ≤ fuel →
      (forwardLoop ByOrderLB timeout servers env fuel i rr).1 = .panic := by
  intro fuel
  induction fuel with
  | zero =>
    intro i rr h1 h2
    omega
  | succ fuel ih =>
    intro i rr h1 h2
    simp only [forwardLoop]
    rw [if_pos (hck i h1)]
    rcases Nat.eq_or_lt_of_le h1 with rfl | hi
    · rw [selectHost_byOrder, List.get?_eq_none.mpr (le_refl _)]
      rfl
    · rw [selectHost_byOrder, List.get?_eq_get hi]
      simp only [Option.map_some']
      have hattempt := hat i (servers.get ⟨i, hi⟩).address hi
      cases hex : env.exchange i (servers.get ⟨i, hi⟩).address with
      | err => exact ih (i+1) rr (by omega) (by omega)
      | resp m =>
        rw [hex] at hattempt
        simp only [isNoAnswerAttempt, List.isEmpty_iff] at hattempt
        dsimp only
        rw [if_neg (by simp [hattempt])]
        exact ih (i+1) rr (by omega) (by omega)

/-- Claim C2: under ByOrder, the loop body selects the server for
iteration `i` by raw indexing `servers[i]` — no wrap, no cap, and no
round-robin state change; consequently the loop avoids the
out-of-range panic when the deadline check fails at some iteration
count not exceeding the server-set size, and it reaches the
out-of-range panic whenever the deadline still admits the iteration
whose counter equals the set size and no earlier attempt produced an
answer. -/
theorem byOrder_raw_index (timeout : Nat) (servers : List UpstreamServer)
    (env : FwdEnv) (fuel : Nat) (rr : Option IndexRoundRobin) :
    (∀ i rr0, selectHost ByOrderLB servers i rr0 =
        (servers.get? i).map fun s => (s.address, rr0)) ∧
    ((∃ stop, stop ≤ servers.length ∧ ¬ env.checkTime stop < env.start + timeout) →
      (forwardLoop ByOrderLB timeout servers env fuel 0 rr).1 ≠ .panic) ∧
    ((∀ i, i ≤ servers.length → env.checkTime i < env.start + timeout) →
      (∀ i h, i < servers.length → isNoAnswerAttempt (env.exchange i h) = true) →
      servers.length + 1 ≤ fuel →
      (forwardLoop ByOrderLB timeout servers env fuel 0 rr).1 = .panic) := by
  refine ⟨fun i rr0 => selectHost_byOrder servers i rr0, ?_, ?_⟩
  · rintro ⟨stop, hs1, hs2⟩
    exact byOrder_no_panic timeout servers env fuel 0 rr stop (Nat.zero_le stop) hs1 hs2
  · intro hck hat hfuel
    exact byOrder_panic timeout servers env hck hat fuel 0 rr (Nat.zero_le _) (by omega)

/-- Witness for C2: two servers; with a 2-tick deadline the loop exits
without panicking, with a 99-tick deadline and failing attempts it
panics at iteration 2. -/
theorem byOrder_raw_index_w :
    (selectHost ByOrderLB
        [{ address := "a:53", annotations := [] }, { address := "b:53", annotations := [] }]
        0 none =
      (([{ address := "a:53", annotations := [] },
          { address := "b:53", annotations := [] }] :
            List UpstreamServer).get? 0).map fun s => (s.address, none)) ∧
    ((forwardLoop ByOrderLB 2
        [{ address := "a:53", annotations := [] }, { address := "b:53", annotations := [] }]
        { start := 0, checkTime := fun i => i, exchange := fun _ _ => .err }
        10 0 none).1 ≠ .panic) ∧
    ((forwardLoop ByOrderLB 99
        [{ address := "a:53", annotations := [] }, { address := "b:53", annotations := [] }]
        { start := 0, checkTime := fun i => i, exchange := fun _ _ => .err }
        10 0 none).1 = .panic) :=
  ⟨(byOrder_raw_index 2 _ { start := 0, checkTime := fun i => i, exchange := fun _ _ => .err }
      10 none).1 0 none,
   (byOrder_raw_index 2 _ { start := 0, checkTime := fun i => i, exchange := fun _ _ => .err }
      10 none).2.1 ⟨2, by decide, by decide⟩,
   (byOrder_raw_index 99 _ { start := 0, checkTime := fun i => i, exchange := fun _ _ => .err }
      10 none).2.2
     (by
       intro i hi
       simp only [List.length_cons, List.length_nil] at hi
       show i < 0 + 99
       omega)
     (by intro i h _; rfl) (by decide)⟩

/-- Claim C6: when `forwardRequest` returns failure (`nil`) with final
loop counter `n`, every iteration `j < n` that issued an attempt had
first observed a clock value strictly before the fixed deadline
`start + Timeout`, and the failing return was triggered by the first
observation at or past that deadline — so the failure happens no later
than `Timeout` after loop entry plus the duration of the last in-flight
exchange (the gap between observation `n-1`, still before the deadline,
and observation `n`). -/
theorem forwardRequest_deadline (usm : UpstreamsManager) (req : DnsMsg)
    (meta : RequestMetadata) (env : FwdEnv) (fuel : Nat)
    (rr rr' : Option IndexRoundRobin) (n : Nat) (srvs : List UpstreamServer)
    (h : usm.forwardRequest req meta env fuel rr = (.noAnswer, rr', n, srvs)) :
    (∀ j, j < n → env.checkTime j < env.start + usm.timeout) ∧
    ¬ env.checkTime n < env.start + usm.timeout ∧
    (0 < n → env.checkTime (n-1) < env.start + usm.timeout) := by
  unfold UpstreamsManager.forwardRequest at h
  have hf := upstreamSelector_fst usm req meta
  rcases hsel : usm.UpstreamSelector req meta with ⟨e, servers⟩
  rw [hsel] at h hf
  simp only at hf
  subst hf
  dsimp only at h
  rcases hloop : forwardLoop usm.lbType usm.timeout servers env fuel 0 rr with ⟨out, rr2, i⟩
  rw [hloop] at h
  dsimp only at h
  simp only [Prod.mk.injEq] at h
  obtain ⟨rfl, rfl, rfl, rfl⟩ := h
  have ht := forwardLoop_times usm.lbType usm.timeout servers env fuel 0 rr _ _ _ hloop
  exact ⟨fun j hj => ht.2.1 j (Nat.zero_le j) hj, ht.2.2 rfl,
    fun hn => ht.2.1 _ (Nat.zero_le _) (by omega)⟩

/-- Witness for C6: one RoundRobin server that always errors under a
3-tick deadline; the loop issues attempts at clock 0, 1, 2 and returns
`nil` at the first observation (3) past the deadline. -/
theorem forwardRequest_deadline_w :
    ((newUpstreamsManager [{ address := "a:53", annotations := [] }] "RoundRobin" none 3).1.forwardRequest
        { question := [], answer := [] } { region := "x" }
        { start := 0, checkTime := fun i => i, exchange := fun _ _ => .err } 10
        (some { current := 0, max := 1 }) =
      (.noAnswer, some { current := 1, max := 1 }, 3,
        [{ address := "a:53", annotations := [] }])) ∧
    ((∀ j, j < 3 →
        ({ start := 0, checkTime := fun i => i, exchange := fun _ _ => .err } :
          FwdEnv).checkTime j <
          ({ start := 0, checkTime := fun i => i, exchange := fun _ _ => .err } :
            FwdEnv).start +
            (newUpstreamsManager [{ address := "a:53", annotations := [] }]
              "RoundRobin" none 3).1.timeout) ∧
      ¬ ({ start := 0, checkTime := fun i => i, exchange := fun _ _ => .err } :
          FwdEnv).checkTime 3 <
          ({ start := 0, checkTime := fun i => i, exchange := fun _ _ => .err } :
            FwdEnv).start +
            (newUpstreamsManager [{ address := "a:53", annotations := [] }]
              "RoundRobin" none 3).1.timeout ∧
      (0 < 3 →
        ({ start := 0, checkTime := fun i => i, exchange := fun _ _ => .err } :
          FwdEnv).checkTime (3-1) <
          ({ start := 0, checkTime := fun i => i, exchange := fun _ _ => .err } :
            FwdEnv).start +
            (newUpstreamsManager [{ address := "a:53", annotations := [] }]
              "RoundRobin" none 3).1.timeout)) :=
  ⟨by decide,
   forwardRequest_deadline
     (newUpstreamsManager [{ address := "a:53", annotations := [] }] "RoundRobin" none 3).1
     { question := [], answer := [] } { region := "x" }
     { start := 0, checkTime := fun i => i, exchange := fun _ _ => .err } 10
     (some { current := 0, max := 1 }) (some { current := 1, max := 1 }) 3
     [{ address := "a:53", annotations := [] }] (by decide)⟩

/-- Claim C7: inside one candidate's forwarding loop, an attempt that
errors at the transport level and an attempt whose response carries
zero answer records are handled identically — the loop just continues
with the next iteration — and the failing `nil` return only ever
happens when the deadline check observes the timeout budget
exhausted. -/
theorem forwardLoop_transient (lbType timeout : Nat) (servers : List UpstreamServer)
    (env : FwdEnv) (fuel i : Nat) (rr rr2 : Option IndexRoundRobin) (host : String) :
    (env.checkTime i < env.start + timeout →
      selectHost lbType servers i rr = some (host, rr2) →
      isNoAnswerAttempt (env.exchange i host) = true →
      forwardLoop lbType timeout servers env (fuel+1) i rr =
        forwardLoop lbType timeout servers env fuel (i+1) rr2) ∧
    (∀ out rr' n, forwardLoop lbType timeout servers env fuel i rr = (out, rr', n) →
      out = .noAnswer → ¬ env.checkTime n < env.start + timeout) := by
  constructor
  · intro hc hsel hatt
    simp only [forwardLoop]
    rw [if_pos hc, hsel]
    dsimp only
    cases hex : env.exchange i host with
    | err => rfl
    | resp m =>
      rw [hex] at hatt
      simp only [isNoAnswerAttempt, List.isEmpty_iff] at hatt
      simp [hatt]
  · intro out rr' n h hno
    subst hno
    exact (forwardLoop_times lbType timeout servers env fuel i rr _ _ _ h).2.2 rfl

/-- Witness for C7: three ByOrder servers that always error under a
3-tick deadline; the first erroring attempt just advances the loop, and
the `nil` return at counter 3 coincides with the deadline being
observed exhausted. -/
theorem forwardLoop_transient_w :
    (forwardLoop ByOrderLB 3
        [{ address := "a:53", annotations := [] }, { address := "b:53", annotations := [] },
         { address := "c:53", annotations := [] }]
        { start := 0, checkTime := fun i => i, exchange := fun _ _ => .err } (10+1) 0 none =
      forwardLoop ByOrderLB 3
        [{ address := "a:53", annotations := [] }, { address := "b:53", annotations := [] },
         { address := "c:53", annotations := [] }]
        { start := 0, checkTime := fun i => i, exchange := fun _ _ => .err } 10 (0+1) none) ∧
    ¬ ({ start := 0, checkTime := fun i => i, exchange := fun _ _ => .err } :
        FwdEnv).checkTime 3 <
        ({ start := 0, checkTime := fun i => i, exchange := fun _ _ => .err } :
          FwdEnv).start + 3 :=
  ⟨(forwardLoop_transient ByOrderLB 3
      [{ address := "a:53", annotations := [] }, { address := "b:53", annotations := [] },
       { address := "c:53", annotations := [] }]
      { start := 0, checkTime := fun i => i, exchange := fun _ _ => .err }
      10 0 none none "a:53").1 (by decide) (by decide) (by decide),
   (forwardLoop_transient ByOrderLB 3
      [{ address := "a:53", annotations := [] }, { address := "b:53", annotations := [] },
       { address := "c:53", annotations := [] }]
      { start := 0, checkTime := fun i => i, exchange := fun _ _ => .err }
      10 0 none none "a:53").2 .noAnswer none 3 (by decide) rfl⟩

/-- Claim C8: an empty candidate list makes `Apply` fail immediately
with the input-contract error; the empty trace records that no upstream
message was built, no selector ran, and no server was contacted. -/
theorem apply_empty (usm : UpstreamsManager) (meta : RequestMetadata)
    (env : Nat → FwdEnv) (fuel : Nat) (rr : Option IndexRoundRobin)
    (res : EngineResult) (msg : DnsMsg) :
    usm.Apply { queries := [], result := res, dnsMsg := msg } meta env fuel rr =
      (.err "can't get as input empty EngineQuery", rr, []) := by
  unfold UpstreamsManager.Apply
  simp

/-! ## Candidate-loop lemmas -/

/-- If the `k`-th threaded candidate outcome is a response and all
earlier ones are `nil`, the candidate loop returns that response
wrapped in an `ALLOWED` result, having traced exactly `k+1`
`forwardRequest` calls beyond the accumulator. -/
lemma applyLoop_first_ok (usm : UpstreamsManager) (origin : DnsMsg)
    (meta : RequestMetadata) (env : Nat → FwdEnv) (fuel : Nat) :
    ∀ (qs : List Query) (cIdx : Nat) (rr : Option IndexRoundRobin)
      (tr : List CandTrace) (allQ : List Query) (k : Nat) (resp : DnsMsg),
      (candOutcomes usm origin meta env fuel qs cIdx rr).get? k = some (.ok resp) →
      (∀ j, j < k →
        (candOutcomes usm origin meta env fuel qs cIdx rr).get? j = some .noAnswer) →
      ∃ rr' tr', applyLoop usm allQ origin meta env fuel qs cIdx rr tr =
          (.ok { queries := allQ, result := .ALLOWED, dnsMsg := resp }, rr', tr') ∧
        tr'.length = tr.length + (k+1) := by
  intro qs
  induction qs with
  | nil =>
    intro cIdx rr tr allQ k resp hk hlt
    simp [candOutcomes] at hk
  | cons q rest ih =>
    intro cIdx rr tr allQ k resp hk hlt
    cases hb : buildUpstreamMsg origin q with
    | none =>
      simp only [candOutcomes, hb] at hk hlt
      cases k with
      | zero => simp at hk
      | succ k0 =>
        have h0 := hlt 0 (Nat.succ_pos k0)
        simp at h0
    | some u =>
      rcases hfr : usm.forwardRequest u meta (env cIdx) fuel rr with ⟨out, rr2, iters, srvs⟩
      simp only [candOutcomes, hb, hfr] at hk hlt
      cases k with
      | zero =>
        simp only [List.get?_cons_zero, Option.some.injEq] at hk
        subst hk
        refine ⟨rr2, tr ++ [{ builtMsg := u, serversUsed := srvs, iters := iters }], ?_, ?_⟩
        · simp only [applyLoop, hb, hfr]
        · simp
      | succ k0 =>
        have h0 := hlt 0 (Nat.succ_pos k0)
        simp only [List.get?_cons_zero, Option.some.injEq] at h0
        subst h0
        simp only [List.get?_cons_succ] at hk
        have hlt' : ∀ j, j < k0 →
            (candOutcomes usm origin meta env fuel rest (cIdx+1) rr2).get? j =
              some .noAnswer := by
          intro j hj
          have := hlt (j+1) (by omega)
          simpa using this
        obtain ⟨rr', tr', heq, hlen⟩ :=
          ih (cIdx+1) rr2 (tr ++ [{ builtMsg := u, serversUsed := srvs, iters := iters }])
            allQ k0 resp hk hlt'
        refine ⟨rr', tr', ?_, ?_⟩
        · rw [applyLoop, hb]
          dsimp only
          rw [hfr]
          exact heq
        · simp only [List.length_append, List.length_cons, List.length_nil] at hlen
          omega

/-- If every threaded candidate outcome is `nil`, the candidate loop
exhausts the list and returns the terminal error. -/
lemma applyLoop_all_noAnswer (usm : UpstreamsManager) (origin : DnsMsg)
    (meta : RequestMetadata) (env : Nat → FwdEnv) (fuel : Nat) :
    ∀ (qs : List Query) (cIdx : Nat) (rr : Option IndexRoundRobin)
      (tr : List CandTrace) (allQ : List Query),
      (∀ o ∈ candOutcomes usm origin meta env fuel qs cIdx rr, o = .noAnswer) →
      ∃ rr' tr', applyLoop usm allQ origin meta env fuel qs cIdx rr tr =
        (.err "failed to get response from Upstream Servers", rr', tr') := by
  intro qs
  induction qs with
  | nil =>
    intro cIdx rr tr allQ hall
    exact ⟨rr, tr, rfl⟩
  | cons q rest ih =>
    intro cIdx rr tr allQ hall
    cases hb : buildUpstreamMsg origin q with
    | none =>
      have := hall .panic (by simp [candOutcomes, hb])
      exact absurd this (by simp)
    | some u =>
      rcases hfr : usm.forwardRequest u meta (env cIdx) fuel rr with ⟨out, rr2, iters, srvs⟩
      have hhead : out = .noAnswer := by
        refine hall out ?_
        simp [candOutcomes, hb, hfr]
      subst hhead
      have htail : ∀ o ∈ candOutcomes usm origin meta env fuel rest (cIdx+1) rr2,
          o = .noAnswer := by
        intro o ho
        refine hall o ?_
        simp [candOutcomes, hb, hfr, ho]
      obtain ⟨rr', tr', heq⟩ :=
        ih (cIdx+1) rr2 (tr ++ [{ builtMsg := u, serversUsed := srvs, iters := iters }])
          allQ htail
      refine ⟨rr', tr', ?_⟩
      rw [applyLoop, hb]
      dsimp only
      rw [hfr]
      exact heq

/-- Claim C1: with a non-empty candidate list, `Apply` tries the
candidates strictly in list order — if, threading the round-robin state
candidate by candidate, the `k`-th candidate is the first whose
forwarding yields a non-`nil` response, `Apply` returns success
carrying that response with `Result = ALLOWED` after exactly `k+1`
forwarding calls (no later candidate is tried); and if every
candidate's forwarding yields `nil`, `Apply` returns the terminal
error. -/
theorem apply_first_answer_wins (usm : UpstreamsManager) (query : EngineQuery)
    (meta : RequestMetadata) (env : Nat → FwdEnv) (fuel : Nat)
    (rr : Option IndexRoundRobin) (hne : query.queries ≠ []) :
    (∀ k resp,
      (candOutcomes usm query.dnsMsg meta env fuel query.queries 0 rr).get? k =
          some (.ok resp) →
      (∀ j, j < k →
        (candOutcomes usm query.dnsMsg meta env fuel query.queries 0 rr).get? j =
          some .noAnswer) →
      ∃ rr' tr', usm.Apply query meta env fuel rr =
          (.ok { queries := query.queries, result := .ALLOWED, dnsMsg := resp }, rr', tr') ∧
        tr'.length = k + 1) ∧
    ((∀ o ∈ candOutcomes usm query.dnsMsg meta env fuel query.queries 0 rr,
        o = .noAnswer) →
      ∃ rr' tr', usm.Apply query meta env fuel rr =
        (.err "failed to get response from Upstream Servers", rr', tr')) := by
  have hlen : ¬ query.queries.length ≤ 0 := by
    cases hq : query.queries with
    | nil => exact absurd hq hne
    | cons a l => simp [hq]
  constructor
  · intro k resp hk hlt
    obtain ⟨rr', tr', heq, hl⟩ :=
      applyLoop_first_ok usm query.dnsMsg meta env fuel query.queries 0 rr []
        query.queries k resp hk hlt
    refine ⟨rr', tr', ?_, by simpa using hl⟩
    rw [UpstreamsManager.Apply, if_neg hlen]
    exact heq
  · intro hall
    obtain ⟨rr', tr', heq⟩ :=
      applyLoop_all_noAnswer usm query.dnsMsg meta env fuel query.queries 0 rr []
        query.queries hall
    refine ⟨rr', tr', ?_⟩
    rw [UpstreamsManager.Apply, if_neg hlen]
    exact heq

/-- Witness for C1: two candidates against one ByOrder server; the
first candidate's deadline expires before any attempt (`nil`), the
second candidate gets an answered response, so `Apply` succeeds with
that response after exactly two forwarding calls. -/
theorem apply_first_answer_wins_w :
    ∃ rr' tr',
      ((newUpstreamsManager [{ address := "a:53", annotations := [] }] "ByOrder" none 1).1.Apply
          { queries := [{ name := "a.example.", qtype := 1 },
                        { name := "b.example.", qtype := 1 }],
            result := .ALLOWED,
            dnsMsg := { question := [{ name := "a.example.", qtype := 1, qclass := 1 }],
                        answer := [] } }
          { region := "x" }
          (fun c => if c = 0 then
              { start := 0, checkTime := fun i => i + 5, exchange := fun _ _ => .err }
            else
              { start := 0, checkTime := fun i => i,
                exchange := fun _ _ => .resp { question := [], answer := [{ data := "1.2.3.4" }] } })
          10 none =
        (.ok { queries := [{ name := "a.example.", qtype := 1 },
                           { name := "b.example.", qtype := 1 }],
               result := .ALLOWED,
               dnsMsg := { question := [], answer := [{ data := "1.2.3.4" }] } }, rr', tr')) ∧
      tr'.length = 1 + 1 :=
  (apply_first_answer_wins
    (newUpstreamsManager [{ address := "a:53", annotations := [] }] "ByOrder" none 1).1
    { queries := [{ name := "a.example.", qtype := 1 },
                  { name := "b.example.", qtype := 1 }],
      result := .ALLOWED,
      dnsMsg := { question := [{ name := "a.example.", qtype := 1, qclass := 1 }],
                  answer := [] } }
    { region := "x" }
    (fun c => if c = 0 then
        { start := 0, checkTime := fun i => i + 5, exchange := fun _ _ => .err }
      else
        { start := 0, checkTime := fun i => i,
          exchange := fun _ _ => .resp { question := [], answer := [{ data := "1.2.3.4" }] } })
    10 none (by decide)).1 1 { question := [], answer := [{ data := "1.2.3.4" }] }
    (by decide) (by decide)

/-- `UpstreamSelector` never reads the forwarded message: its result is
a function of the manager and the request metadata alone. -/
lemma upstreamSelector_req_irrel (usm : UpstreamsManager) (req req' : DnsMsg)
    (meta : RequestMetadata) :
    usm.UpstreamSelector req meta = usm.UpstreamSelector req' meta := rfl

/-- Each `forwardRequest` call performs exactly one selector invocation
and reports the server set that invocation resolved. -/
lemma forwardRequest_servers (usm : UpstreamsManager) (req : DnsMsg)
    (meta : RequestMetadata) (env : FwdEnv) (fuel : Nat)
    (rr : Option IndexRoundRobin) :
    (usm.forwardRequest req meta env fuel rr).2.2.2 =
      (usm.UpstreamSelector req meta).2 := by
  unfold UpstreamsManager.forwardRequest
  have hf := upstreamSelector_fst usm req meta
  rcases hsel : usm.UpstreamSelector req meta with ⟨e, servers⟩
  rw [hsel] at hf
  simp only at hf
  subst hf
  dsimp only

/-- Every trace record appended by the candidate loop carries the
server set of the single per-request selection (the selector ignores
the message, so every candidate's invocation resolves the same set). -/
lemma applyLoop_trace_servers (usm : UpstreamsManager) (origin : DnsMsg)
    (meta : RequestMetadata) (env : Nat → FwdEnv) (fuel : Nat) (probe : DnsMsg) :
    ∀ (qs : List Query) (cIdx : Nat) (rr : Option IndexRoundRobin)
      (tr : List CandTrace) (allQ : List Query)
      (out : ApplyOut) (rr' : Option IndexRoundRobin) (tr' : List CandTrace),
      (∀ c ∈ tr, c.serversUsed = (usm.UpstreamSelector probe meta).2) →
      applyLoop usm allQ origin meta env fuel qs cIdx rr tr = (out, rr', tr') →
      ∀ c ∈ tr', c.serversUsed = (usm.UpstreamSelector probe meta).2 := by
  intro qs
  induction qs with
  | nil =>
    intro cIdx rr tr allQ out rr' tr' hinv h
    simp only [applyLoop, Prod.mk.injEq] at h
    obtain ⟨rfl, rfl, rfl⟩ := h
    exact hinv
  | cons q rest ih =>
    intro cIdx rr tr allQ out rr' tr' hinv h
    rw [applyLoop] at h
    cases hb : buildUpstreamMsg origin q with
    | none =>
      rw [hb] at h
      simp only [Prod.mk.injEq] at h
      obtain ⟨rfl, rfl, rfl⟩ := h
      exact hinv
    | some u =>
      rw [hb] at h
      dsimp only at h
      rcases hfr : usm.forwardRequest u meta (env cIdx) fuel rr with ⟨fout, rr2, iters, srvs⟩
      rw [hfr] at h
      dsimp only at h
      have hsrv : srvs = (usm.UpstreamSelector probe meta).2 := by
        have h1 := forwardRequest_servers usm u meta (env cIdx) fuel rr
        rw [hfr] at h1
        rw [upstreamSelector_req_irrel usm u probe meta] at h1
        exact h1
      have hinv' : ∀ c ∈ tr ++ [{ builtMsg := u, serversUsed := srvs, iters := iters }],
          c.serversUsed = (usm.UpstreamSelector probe meta).2 := by
        intro c hc
        rcases List.mem_append.mp hc with hc1 | hc2
        · exact hinv c hc1
        · simp only [List.mem_singleton] at hc2
          subst hc2
          exact hsrv
      cases fout with
      | ok resp =>
        simp only [Prod.mk.injEq] at h
        obtain ⟨rfl, rfl, rfl⟩ := h
        exact hinv'
      | noAnswer =>
        exact ih (cIdx+1) rr2 _ allQ out rr' tr' hinv' h
      | panic =>
        simp only [Prod.mk.injEq] at h
        obtain ⟨rfl, rfl, rfl⟩ := h
        exact hinv'
      | fuelOut =>
        simp only [Prod.mk.injEq] at h
        obtain ⟨rfl, rfl, rfl⟩ := h
        exact hinv'

/-- Counterexample to C9 as stated: in the code, `forwardRequest`
invokes `UpstreamSelector` itself, so selection happens once per
candidate attempted, not exactly once per request.  In this concrete
run the first candidate times out and the second succeeds: the trace
records two `forwardRequest` calls, each performing its own selector
invocation — two selections for one request, not one. -/
theorem apply_selector_once_cex :
    (((newUpstreamsManager [{ address := "a:53", annotations := [] }] "ByOrder" none 1).1.Apply
        { queries := [{ name := "a.example.", qtype := 1 },
                      { name := "b.example.", qtype := 1 }],
          result := .ALLOWED,
          dnsMsg := { question := [{ name := "a.example.", qtype := 1, qclass := 1 }],
                      answer := [] } }
        { region := "x" }
        (fun c => if c = 0 then
            { start := 0, checkTime := fun i => i + 5, exchange := fun _ _ => .err }
          else
            { start := 0, checkTime := fun i => i,
              exchange := fun _ _ => .resp { question := [], answer := [{ data := "1.2.3.4" }] } })
        10 none).2.2.length = 2) ∧
    ¬ (((newUpstreamsManager [{ address := "a:53", annotations := [] }] "ByOrder" none 1).1.Apply
        { queries := [{ name := "a.example.", qtype := 1 },
                      { name := "b.example.", qtype := 1 }],
          result := .ALLOWED,
          dnsMsg := { question := [{ name := "a.example.", qtype := 1, qclass := 1 }],
                      answer := [] } }
        { region := "x" }
        (fun c => if c = 0 then
            { start := 0, checkTime := fun i => i + 5, exchange := fun _ _ => .err }
          else
            { start := 0, checkTime := fun i => i,
              exchange := fun _ _ => .resp { question := [], answer := [{ data := "1.2.3.4" }] } })
        10 none).2.2.length = 1) := by
  constructor
  · decide
  · decide

/-- Claim C9, amended: server-set selection is performed once per
candidate attempted (inside each `forwardRequest` call), not once per
request; but because `UpstreamSelector` depends only on the manager and
the request metadata — never on the forwarded message — every candidate
of one request is forwarded against the identical server set, the one a
single per-request selection would resolve. -/
theorem apply_selector_constant (usm : UpstreamsManager) (query : EngineQuery)
    (meta : RequestMetadata) (env : Nat → FwdEnv) (fuel : Nat)
    (rr : Option IndexRoundRobin) (out : ApplyOut)
    (rr' : Option IndexRoundRobin) (tr : List CandTrace)
    (h : usm.Apply query meta env fuel rr = (out, rr', tr)) (probe : DnsMsg) :
    ∀ c ∈ tr, c.serversUsed = (usm.UpstreamSelector probe meta).2 := by
  rw [UpstreamsManager.Apply] at h
  by_cases hq : query.queries.length ≤ 0
  · rw [if_pos hq] at h
    simp only [Prod.mk.injEq] at h
    obtain ⟨rfl, rfl, rfl⟩ := h
    intro c hc
    exact absurd hc (List.not_mem_nil c)
  · rw [if_neg hq] at h
    exact applyLoop_trace_servers usm query.dnsMsg meta env fuel probe query.queries 0 rr
      [] query.queries out rr' tr (by intro c hc; exact absurd hc (List.not_mem_nil c)) h

/-- Witness for C9's amended claim on the two-candidate run of the
counterexample: the first trace record (the timed-out candidate) was
forwarded against exactly the server set the single metadata-only
selection resolves. -/
theorem apply_selector_constant_w :
    ({ builtMsg := { question := [{ name := "a.example.", qtype := 1, qclass := 1 }],
                     answer := [] },
       serversUsed := [{ address := "a:53", annotations := [] }],
       iters := 0 } : CandTrace).serversUsed =
      ((newUpstreamsManager [{ address := "a:53", annotations := [] }] "ByOrder" none 1).1.UpstreamSelector
        { question := [], answer := [] } { region := "x" }).2 :=
  apply_selector_constant
    (newUpstreamsManager [{ address := "a:53", annotations := [] }] "ByOrder" none 1).1
    { queries := [{ name := "a.example.", qtype := 1 },
                  { name := "b.example.", qtype := 1 }],
      result := .ALLOWED,
      dnsMsg := { question := [{ name := "a.example.", qtype := 1, qclass := 1 }],
                  answer := [] } }
    { region := "x" }
    (fun c => if c = 0 then
        { start := 0, checkTime := fun i => i + 5, exchange := fun _ _ => .err }
      else
        { start := 0, checkTime := fun i => i,
          exchange := fun _ _ => .resp { question := [], answer := [{ data := "1.2.3.4" }] } })
    10 none _ _ _ rfl { question := [], answer := [] }
    { builtMsg := { question := [{ name := "a.example.", qtype := 1, qclass := 1 }],
                    answer := [] },
      serversUsed := [{ address := "a:53", annotations := [] }],
      iters := 0 }
    (by decide)

/-! ## Region-group construction lemmas -/

/-- One construction step, read at a non-reserved key: the group of a
region name other than `"all"` gains the server exactly when the server
carries that region annotation. -/
lemma addServerToGroups_region (m : String → Option (List UpstreamServer))
    (s : UpstreamServer) (r : String) (hr : r ≠ AllGroupName) :
    (addServerToGroups m s) r =
      (if s.annot "region" == some r then some (((m r).getD []) ++ [s]) else m r) := by
  unfold addServerToGroups
  rw [if_neg hr]
  cases hs : s.annot "region" with
  | none => simp
  | some reg =>
    by_cases hreg : r = reg
    · subst hreg
      simp
    · simp [hreg, Ne.symm hreg]

/-- One construction step, read at the reserved `"all"` key, for a
server not annotated `region = "all"`: the `"all"` group gains the
server exactly once. -/
lemma addServerToGroups_all (m : String → Option (List UpstreamServer))
    (s : UpstreamServer) (hs : s.annot "region" ≠ some AllGroupName) :
    (addServerToGroups m s) AllGroupName =
      some (((m AllGroupName).getD []) ++ [s]) := by
  unfold addServerToGroups
  rw [if_pos rfl]
  cases hann : s.annot "region" with
  | none => rfl
  | some reg =>
    have hne : AllGroupName ≠ reg := by
      intro he
      exact hs (by rw [hann, ← he])
    simp [hne]

/-- The group of a non-reserved region name after the whole
construction loop: absent when no server carries the annotation,
otherwise exactly the annotated servers in configured order, appended
to whatever the accumulator already held. -/
lemma foldl_groups_region (r : String) (hr : r ≠ AllGroupName) :
    ∀ (servers : List UpstreamServer) (m : String → Option (List UpstreamServer)),
      (servers.foldl addServerToGroups m) r =
        (if servers.filter (fun s => s.annot "region" == some r) = []
         then m r
         else some (((m r).getD []) ++
           servers.filter (fun s => s.annot "region" == some r))) := by
  intro servers
  induction servers with
  | nil =>
    intro m
    simp
  | cons s rest ih =>
    intro m
    rw [List.foldl_cons, ih (addServerToGroups m s), addServerToGroups_region m s r hr]
    by_cases hp : s.annot "region" == some r
    · rw [if_pos hp]
      rw [List.filter_cons_of_pos (by simpa using hp)]
      by_cases hrest : rest.filter (fun s => s.annot "region" == some r) = []
      · rw [if_pos hrest, hrest]
        simp
      · rw [if_neg hrest, if_neg (by simp [hrest])]
        simp [List.append_assoc]
    · rw [if_neg hp]
      rw [List.filter_cons_of_neg (by simpa using hp)]

/-- The `"all"` group after the whole construction loop, when no server
is annotated `region = "all"`: every configured server, once, in
configured order, appended to whatever the accumulator already held
(absent only when there are no servers at all). -/
lemma foldl_groups_all :
    ∀ (servers : List UpstreamServer) (m : String → Option (List UpstreamServer)),
      (∀ s ∈ servers, s.annot "region" ≠ some AllGroupName) →
      (servers.foldl addServerToGroups m) AllGroupName =
        (if servers = [] then m AllGroupName
         else some (((m AllGroupName).getD []) ++ servers)) := by
  intro servers
  induction servers with
  | nil =>
    intro m _
    simp
  | cons s rest ih =>
    intro m hall
    rw [List.foldl_cons,
      ih (addServerToGroups m s) (fun x hx => hall x (List.mem_cons_of_mem s hx)),
      addServerToGroups_all m s (hall s (List.mem_cons_self s rest))]
    by_cases hrest : rest = []
    · subst hrest
      simp
    · rw [if_neg hrest, if_neg (by simp)]
      simp [List.append_assoc]

/-- Counterexample to C3 as stated: take one server annotated
`region = "eu"`, a configured region map, and a request with
`Region = "all"`.  The group map does contain a group named `"all"`
(the reserved group), so by the claim the selected set should be
exactly the servers carrying the annotation `region = "all"` — the
empty set — but the code selects the full `"all"` group, i.e. the
`"eu"`-annotated server. -/
theorem upstreamSelector_region_cex :
    ((newUpstreamsManager [{ address := "a:53", annotations := [("region", "eu")] }]
        "ByOrder" (some { regions := [] }) 1).1.regionMap.isSome = true) ∧
    (((newUpstreamsManager [{ address := "a:53", annotations := [("region", "eu")] }]
        "ByOrder" (some { regions := [] }) 1).1.serversRegionMap "all").isSome = true) ∧
    (((newUpstreamsManager [{ address := "a:53", annotations := [("region", "eu")] }]
        "ByOrder" (some { regions := [] }) 1).1.UpstreamSelector
        { question := [], answer := [] } { region := "all" }).2 =
      [{ address := "a:53", annotations := [("region", "eu")] }]) ∧
    (([{ address := "a:53", annotations := [("region", "eu")] }] :
        List UpstreamServer).filter (fun s => s.annot "region" == some "all") = []) ∧
    (((newUpstreamsManager [{ address := "a:53", annotations := [("region", "eu")] }]
        "ByOrder" (some { regions := [] }) 1).1.UpstreamSelector
        { question := [], answer := [] } { region := "all" }).2 ≠
      ([{ address := "a:53", annotations := [("region", "eu")] }] :
        List UpstreamServer).filter (fun s => s.annot "region" == some "all")) := by
  refine ⟨rfl, rfl, by decide, by decide, by decide⟩

/-- Claim C3, amended: for a requested region other than the reserved
name `"all"`, and configurations in which no server is annotated
`region = "all"`, selection behaves as claimed — with a region map
configured and at least one server annotated with the requested region,
the selected set is exactly the annotated servers in configured order;
otherwise (no region map, or no server with that annotation) it is the
`"all"` group, which is every configured server in configured order. -/
theorem upstreamSelector_spec (servers : List UpstreamServer) (lbName : String)
    (rm : Option RegionMap) (t : Nat) (req : DnsMsg) (meta : RequestMetadata)
    (hr : meta.region ≠ AllGroupName)
    (hall : ∀ s ∈ servers, s.annot "region" ≠ some AllGroupName) :
    ((newUpstreamsManager servers lbName rm t).1.UpstreamSelector req meta).2 =
      (if rm.isSome = true ∧
          servers.filter (fun s => s.annot "region" == some meta.region) ≠ []
        then servers.filter (fun s => s.annot "region" == some meta.region)
        else servers) := by
  have hmap : (newUpstreamsManager servers lbName rm t).1.serversRegionMap =
      buildServersRegionMap servers := rfl
  have hrm : (newUpstreamsManager servers lbName rm t).1.regionMap = rm := rfl
  have hallgrp : (buildServersRegionMap servers) AllGroupName =
      (if servers = [] then none else some servers) := by
    rw [buildServersRegionMap, foldl_groups_all servers (fun _ => none) hall]
    by_cases hs : servers = []
    · rw [if_pos hs, if_pos hs]
    · rw [if_neg hs, if_neg hs]
      simp
  have hfallback : ((buildServersRegionMap servers) AllGroupName).getD [] = servers := by
    rw [hallgrp]
    by_cases hs : servers = []
    · rw [if_pos hs, hs]
      rfl
    · rw [if_neg hs]
      rfl
  rw [UpstreamsManager.UpstreamSelector, hrm, hmap]
  cases rm with
  | none =>
    simp only [Option.isSome_none, Bool.false_eq_true, false_and, if_false]
    exact hfallback
  | some rmv =>
    have hreg := foldl_groups_region meta.region hr servers (fun _ => none)
    rw [buildServersRegionMap] at *
    by_cases hfil : servers.filter (fun s => s.annot "region" == some meta.region) = []
    · rw [if_pos hfil] at hreg
      rw [hreg]
      dsimp only
      rw [if_neg (by simp [hfil])]
      exact hfallback
    · rw [if_neg hfil] at hreg
      rw [hreg]
      dsimp only
      rw [if_pos ⟨rfl, hfil⟩]
      simp

/-- Witness for C3's amended claim: one `"eu"`-annotated server, a
configured region map, and a request with `Region = "eu"` selects
exactly the annotated server. -/
theorem upstreamSelector_spec_w :
    ((newUpstreamsManager [{ address := "a:53", annotations := [("region", "eu")] }]
        "ByOrder" (some { regions := [] }) 1).1.UpstreamSelector
        { question := [], answer := [] } { region := "eu" }).2 =
      (if (some { regions := [] } : Option RegionMap).isSome = true ∧
          ([{ address := "a:53", annotations := [("region", "eu")] }] :
            List UpstreamServer).filter (fun s => s.annot "region" == some "eu") ≠ []
        then ([{ address := "a:53", annotations := [("region", "eu")] }] :
            List UpstreamServer).filter (fun s => s.annot "region" == some "eu")
        else [{ address := "a:53", annotations := [("region", "eu")] }]) :=
  upstreamSelector_spec [{ address := "a:53", annotations := [("region", "eu")] }]
    "ByOrder" (some { regions := [] }) 1 { question := [], answer := [] }
    { region := "eu" } (by decide) (by decide)

end DnsProxy
